import Mathlib

/-!
Verification of the path-prefix remapping engine and the configuration-file
reactivity controller of the vscode-clangd fork.

The embedding follows the two source files:
* `src/clangd-context.ts` — the segment trie (`trieNode`), its population
  (`updateCompletionPrefixMap`), the greedy walk
  (`getPrefixPathAndReplacePathWithPath`), and the response-rewriting
  middleware (`provideDefinition`, `provideDocumentLinks`).
* `src/custom-file-watcher.ts` — the debounced watcher
  (`debouncedHandleConfigFilesChanged`, `handleConfigFilesChanged`,
  `createFileSystemWatcher`).

Filesystem effects (`realpathSync`, `existsSync`, `fs.stat`) are passed in as
explicit function arguments or encoded as result values, so every definition
stays executable.
-/

namespace VscodeClangd

/-! ### JavaScript string primitives

The source manipulates paths with `String.prototype.split("/")`,
`Array.prototype.join("/")` and `String.prototype.replace(pat, rep)` (string
pattern, so only the first occurrence is replaced).  We model them over the
character list of the string.  `$`-substitution patterns of JavaScript
`replace` are not modelled: the replacement strings here are path prefixes. -/

/-- Splitting a character list at `'/'`, accumulating the current segment in
reverse.  Mirrors `s.split("/")`: the empty string yields `[""]`, a trailing
slash yields a trailing empty segment. -/
def splitSegsAux : List Char → List Char → List (List Char)
  | [], acc => [acc.reverse]
  | c :: cs, acc =>
    if c = '/' then acc.reverse :: splitSegsAux cs []
    else splitSegsAux cs (c :: acc)

/-- Model of the JavaScript `s.split("/")`. -/
def splitSegs (s : String) : List String :=
  (splitSegsAux s.data []).map String.mk

/-- Model of the JavaScript `l.join("/")`. -/
def joinSlash : List String → String
  | [] => ""
  | [s] => s
  | s :: rest => s ++ "/" ++ joinSlash rest

/-- First-occurrence substring replacement on character lists, the semantics
of JavaScript `s.replace(pat, rep)` with a string pattern: the leftmost
occurrence of `pat` (the position 0 occurrence when `pat` is empty) is
replaced by `rep`; when `pat` does not occur, the input is unchanged. -/
def replaceFirstAux (pat rep : List Char) : List Char → List Char
  | [] => if pat.isEmpty then rep else []
  | c :: cs =>
    if pat.isPrefixOf (c :: cs) then rep ++ (c :: cs).drop pat.length
    else c :: replaceFirstAux pat rep cs

/-- Model of the JavaScript `s.replace(pat, rep)` for a string pattern. -/
def replaceFirst (s pat rep : String) : String :=
  String.mk (replaceFirstAux pat.data rep.data s.data)

/-! ### The segment trie (`class trieNode` in `clangd-context.ts`)

A node holds `next : Map<string, trieNode>` and `value : string | undefined`.
The JavaScript `Map` keeps insertion order, `set` on an existing key updates
in place, and `get`/`has` use value equality on the string keys; an
association list with those operations models it exactly. -/

/-- A trie node: ordered children keyed by path segment, and an optional
replacement value (`undefined` is `none`). -/
inductive TrieNode where
  | node (next : List (String × TrieNode)) (value : Option String)

/-- The `next` field of a node. -/
def TrieNode.next : TrieNode → List (String × TrieNode)
  | .node next _ => next

/-- The `value` field of a node. -/
def TrieNode.value : TrieNode → Option String
  | .node _ value => value

/-- The node built by `new trieNode(undefined)`: no children, no value. -/
def emptyTrieNode : TrieNode := .node [] none

/-- Model of `map.get(c)` / `map.has(c)` of the JavaScript `Map`: the entry
stored under key `c`, if any. -/
def lookupChild : List (String × TrieNode) → String → Option TrieNode
  | [], _ => none
  | (k, t) :: rest, c => if k = c then some t else lookupChild rest c

/-- Model of `map.set(c, t)` of the JavaScript `Map`: update the existing
entry in place, else append a new entry. -/
def setChild : List (String × TrieNode) → String → TrieNode → List (String × TrieNode)
  | [], c, t => [(c, t)]
  | (k, u) :: rest, c, t =>
    if k = c then (c, t) :: rest else (k, u) :: setChild rest c t

/-- The per-key body of `updateCompletionPrefixMap`: walk the segments,
creating `new trieNode(undefined)` children where missing, and set the
terminal node's `value` to the replacement path. -/
def insertSegs : TrieNode → List String → String → TrieNode
  | .node next _, [], rep => .node next (some rep)
  | .node next value, c :: cs, rep =>
    .node (setChild next c (insertSegs ((lookupChild next c).getD emptyTrieNode) cs rep)) value

/-- Inserting one mapping entry: the key is split on `"/"` before the walk. -/
def trieInsert (t : TrieNode) (prefixPath replacePath : String) : TrieNode :=
  insertSegs t (splitSegs prefixPath) replacePath

/-- The loop of `getPrefixPathAndReplacePathWithPath`: for each component in
order, if the current node has a child for it, push the component and
descend; otherwise leave the node as is and continue with the next component
(the source loop has no `break`, so later components are still examined). -/
def walkAux : TrieNode → List String → List String → TrieNode × List String
  | t, [], acc => (t, acc)
  | t, c :: cs, acc =>
    match lookupChild t.next c with
    | some child => walkAux child cs (acc ++ [c])
    | none => walkAux t cs acc

/-- The query `getPrefixPathAndReplacePathWithPath(filePath)`: run the walk on
`filePath.split("/")`; if the final node's `value` is truthy (set and not the
empty string) return the consumed components joined by `"/"` paired with the
value, else `undefined`. -/
def getPrefixPathAndReplacePathWithPath (root : TrieNode) (filePath : String) :
    Option (String × String) :=
  let r := walkAux root (splitSegs filePath) []
  match r.1.value with
  | some v => if v = "" then none else some (joinSlash r.2, v)
  | none => none

/-! ### Path resolution (the per-item body of the middleware)

`provideDefinition` and `provideDocumentLinks` both run, per item:
`filePath = realpathSync(path)`; query the trie; on a match build
`resolvePath = filePath.replace(prefixPath, replacePath)`; adopt it only when
`existsSync(resolvePath)`.  The filesystem is abstracted by the two function
arguments `realpath` (canonicalization, assumed to succeed) and
`existsSync`. -/

/-- The per-item remapping shared by the definition and document-link
middleware. -/
def resolve (realpath : String → String) (existsSync : String → Bool)
    (root : TrieNode) (path : String) : String :=
  let filePath := realpath path
  match getPrefixPathAndReplacePathWithPath root filePath with
  | some (prefixPath, replacePath) =>
    let resolvePath := replaceFirst filePath prefixPath replacePath
    if existsSync resolvePath then resolvePath else path
  | none => path

/-! ### Reload (`updateCompletionPrefixMap` in `clangd-context.ts`)

The source checks `existsSync`, then `JSON.parse(readFileSync(...))`, then
inserts each entry of the parsed object into `this.completionPrefixMap` —
the existing trie, with no clearing.  A missing file skips everything; a
parse failure throws before any insertion, so the trie is untouched and the
exception propagates to the caller. -/

/-- The observable states of the mapping document at
`<storageDir>/completion_prefix_map.json`: absent, present but not valid
JSON, or parsed into its entries in object-key order. -/
inductive MappingDoc where
  | missing
  | malformed
  | entries (es : List (String × String))

/-- The reload `updateCompletionPrefixMap`: `.ok` carries the trie field after the call
(the same trie when the file is missing, the trie with every entry inserted
when it parses); `.error` is the propagated `JSON.parse` exception, thrown
before any insertion. -/
def updateCompletionPrefixMap (t : TrieNode) : MappingDoc → Except Unit TrieNode
  | .missing => .ok t
  | .malformed => .error ()
  | .entries es => .ok (es.foldl (fun acc e => trieInsert acc e.1 e.2) t)

/-! ### Response-rewriting middleware -/

/-- A `vscode.Location`, reduced to the `uri.path` the middleware reads and
rewrites. -/
structure Location where
  path : String
  deriving DecidableEq

/-- What the `provideDefinition` middleware can return for a `Location[]`
result: the (possibly empty) array, or the single bare `Location` of the
`return item` branch. -/
inductive DefinitionResponse where
  | list (items : List Location)
  | one (item : Location)
  deriving DecidableEq

/-- The `provideDefinition` middleware on a `Location[]` result: an empty
array falls through to `return result`; otherwise only `list[0]` is
remapped and `return item` yields that single location. -/
def provideDefinition (realpath : String → String) (existsSync : String → Bool)
    (root : TrieNode) : List Location → DefinitionResponse
  | [] => .list []
  | item :: _ => .one ⟨resolve realpath existsSync root item.path⟩

/-- A `vscode.DocumentLink`, reduced to the optional `target.path`. -/
structure DocumentLink where
  target : Option String
  deriving DecidableEq

/-- The `provideDocumentLinks` middleware: `result.map` over the items,
remapping each defined `target` (an empty array falls through to
`return result`, which coincides with mapping over it). -/
def provideDocumentLinks (realpath : String → String) (existsSync : String → Bool)
    (root : TrieNode) (result : List DocumentLink) : List DocumentLink :=
  result.map fun item =>
    match item.target with
    | some p => ⟨some (resolve realpath existsSync root p)⟩
    | none => item

/-! ### The debounced watcher (`custom-file-watcher.ts`)

`debouncedHandleConfigFilesChanged` clears any pending timer and arms a new
2000 ms one capturing the current notification's URI.  We model a burst of
notifications as a list of (arrival time, uri) pairs and compute which
timers actually fire: a timer armed at time `t` is cancelled exactly when
the next notification arrives strictly before `t + 2000`. -/

/-- The debounce delay of `setTimeout(..., 2000)`. -/
def debounceDelay : Nat := 2000

/-- One filesystem notification delivered to
`debouncedHandleConfigFilesChanged`. -/
structure FsNotification where
  time : Nat
  uri : String
  deriving DecidableEq

/-- The timer firings produced by a sequence of notifications: each
notification arms a timer for its own time plus `debounceDelay`, and the
timer survives exactly when no later notification arrives before that
deadline. -/
def debounceFires : List FsNotification → List (Nat × String)
  | [] => []
  | [n] => [(n.time + debounceDelay, n.uri)]
  | n :: m :: rest =>
    if m.time < n.time + debounceDelay then debounceFires (m :: rest)
    else (n.time + debounceDelay, n.uri) :: debounceFires (m :: rest)

/-- The outcome of `vscode.workspace.fs.stat(uri)` at fire time: a size, or
the rejection thrown when the file no longer exists. -/
inductive StatResult where
  | ok (size : Int)
  | fileNotFound
  deriving DecidableEq

/-- What `handleConfigFilesChanged` does after the size check. -/
inductive WatcherAction where
  | noAction
  | updatePrefixMap
  deriving DecidableEq

/-- The `switch (config.get<string>('onConfigChanged'))` dispatch:
`'restart'` breaks with no action (the restart command is commented out in
the source), `'ignore'` breaks, `'prompt'` falls through to the default
branch which calls `updateCompletionPrefixMap`. -/
def dispatchOnConfigChanged (policy : String) : WatcherAction :=
  match policy with
  | "restart" => .noAction
  | "ignore" => .noAction
  | _ => .updatePrefixMap

/-- The handler `handleConfigFilesChanged`: `await fs.stat(uri)` first — its rejection
propagates, there is no surrounding catch — then the `size <= 0` early
return, then the policy dispatch. -/
def handleConfigFilesChanged (stat : StatResult) (policy : String) :
    Except Unit WatcherAction :=
  match stat with
  | .fileNotFound => .error ()
  | .ok size => if size ≤ 0 then .ok .noAction else .ok (dispatchOnConfigChanged policy)

/-- The state a `vscode.FileSystemWatcher` contributes: the watched glob
pattern, which handlers were registered, and whether it was disposed. -/
structure FileSystemWatcher where
  pattern : String
  onDidChange : Bool
  onDidCreate : Bool
  disposed : Bool
  deriving DecidableEq

/-- The `fileWatcher` field of `CustomFileWatcher`. -/
structure CustomFileWatcherState where
  fileWatcher : Option FileSystemWatcher
  deriving DecidableEq

/-- The method `createFileSystemWatcher` (run at construction and on every
`onDidChangeWorkspaceFolders` event): dispose the previous watcher if any,
then — only if `fs.existsSync` reports the mapping file present — create a
fresh watcher for `<dir>/completion_prefix_map.json` with `onDidChange` and
`onDidCreate` handlers; when the file is absent the field keeps its old
(now disposed) content and no new watcher is made. -/
def createFileSystemWatcher (s : CustomFileWatcherState)
    (completionPrefixMapDir : String) (existsSync : String → Bool) :
    CustomFileWatcherState :=
  let disposedPrev := s.fileWatcher.map fun w => { w with disposed := true }
  let completionPrefixMapPath := completionPrefixMapDir ++ "/completion_prefix_map.json"
  if existsSync completionPrefixMapPath then
    { fileWatcher := some
        { pattern := completionPrefixMapPath
          onDidChange := true
          onDidCreate := true
          disposed := false } }
  else
    { fileWatcher := disposedPrev }

/-- The trie holding a single key: a bare chain of nodes ending in the
value.  Used to describe `insertSegs` into the empty trie. -/
def chainTrie : List String → String → TrieNode
  | [], v => .node [] (some v)
  | c :: cs, v => .node [(c, chainTrie cs v)] none

/-! ### Lemmas about the walk -/

theorem insertSegs_empty (segs : List String) (v : String) :
    insertSegs emptyTrieNode segs v = chainTrie segs v := by
  induction segs with
  | nil => rfl
  | cons c cs ih =>
      simp only [emptyTrieNode] at ih
      simp [insertSegs, emptyTrieNode, lookupChild, setChild, chainTrie, ih]

theorem walkAux_no_children (value : Option String) (cs acc : List String) :
    walkAux (.node [] value) cs acc = (.node [] value, acc) := by
  induction cs generalizing acc with
  | nil => rfl
  | cons c cs ih => simpa [walkAux, TrieNode.next, lookupChild] using ih acc

theorem walkAux_chain (ks : List String) (v : String) (rest acc : List String) :
    walkAux (chainTrie ks v) (ks ++ rest) acc = (.node [] (some v), acc ++ ks) := by
  induction ks generalizing acc with
  | nil => simpa using walkAux_no_children (some v) rest acc
  | cons c ks ih =>
      simp only [chainTrie, List.cons_append]
      simp [walkAux, TrieNode.next, lookupChild]
      exact (ih (acc ++ [c])).trans (by simp)

/-- Querying the two-key trie `{k1s ↦ v1, k2s ↦ v2}` (neither key a
segment-boundary prefix of the other) with a path whose leading segments are
exactly `k1s`: the walk consumes `k1s` and ends at `k1s`'s terminal node. -/
theorem walk_two_key (k1s : List String) (k2s : List String) (v1 v2 : String)
    (rest acc : List String)
    (h1 : List.isPrefixOf k1s k2s = false) (h2 : List.isPrefixOf k2s k1s = false) :
    walkAux (insertSegs (chainTrie k1s v1) k2s v2) (k1s ++ rest) acc
      = (.node [] (some v1), acc ++ k1s) := by
  induction k1s generalizing k2s acc with
  | nil => simp [List.isPrefixOf] at h1
  | cons a k1s ih =>
      cases k2s with
      | nil => simp [List.isPrefixOf] at h2
      | cons b k2s =>
          by_cases hab : a = b
          · subst hab
            simp only [List.isPrefixOf, beq_self_eq_true, Bool.true_and] at h1 h2
            simp only [chainTrie, List.cons_append]
            simp [insertSegs, lookupChild, setChild, walkAux, TrieNode.next]
            exact (ih k2s (acc ++ [a]) h1 h2).trans (by simp)
          · simp only [chainTrie, List.cons_append]
            simp [insertSegs, lookupChild, setChild, walkAux, TrieNode.next, hab]
            exact (walkAux_chain k1s v1 rest (acc ++ [a])).trans (by simp)

/-- The components consumed by the walk form a sublist (a not necessarily
contiguous subsequence) of the queried components. -/
theorem walkAux_sublist (cs : List String) (t : TrieNode) (acc : List String) :
    ∃ d, (walkAux t cs acc).2 = acc ++ d ∧ List.Sublist d cs := by
  induction cs generalizing t acc with
  | nil => exact ⟨[], by simp [walkAux], List.nil_sublist _⟩
  | cons c cs ih =>
      cases h : lookupChild t.next c with
      | some child =>
          obtain ⟨d, hd, hsub⟩ := ih child (acc ++ [c])
          exact ⟨c :: d, by simp [walkAux, h, hd], List.Sublist.cons₂ c hsub⟩
      | none =>
          obtain ⟨d, hd, hsub⟩ := ih t acc
          exact ⟨d, by simp [walkAux, h, hd], List.Sublist.cons c hsub⟩

/-! ### Claim theorems -/

/-- C1: `resolve` canonicalizes the input path, queries the trie with the
canonical form, and on a match substitutes the first occurrence of the
matched prefix with the replacement, returning the candidate exactly when it
exists on disk and the original (pre-canonicalization) path otherwise; with
no match the original path is returned unchanged. -/
theorem resolve_matches_spec (realpath : String → String) (existsSync : String → Bool)
    (root : TrieNode) (path : String) :
    (getPrefixPathAndReplacePathWithPath root (realpath path) = none →
      resolve realpath existsSync root path = path) ∧
    ∀ prefixPath replacePath,
      getPrefixPathAndReplacePathWithPath root (realpath path)
          = some (prefixPath, replacePath) →
        (existsSync (replaceFirst (realpath path) prefixPath replacePath) = true →
          resolve realpath existsSync root path
            = replaceFirst (realpath path) prefixPath replacePath) ∧
        (existsSync (replaceFirst (realpath path) prefixPath replacePath) = false →
          resolve realpath existsSync root path = path) := by
  refine ⟨fun h => by simp [resolve, h], fun prefixPath replacePath h => ?_⟩
  constructor <;> intro he <;> simp [resolve, h, he]

/-- Witness for C1, instantiating the concrete scenarios: with the mapping
`/sandbox/src ↦ /home/dev/project`, the input `/sandbox/src/foo/bar.h` is
remapped when the candidate exists on disk and returned unchanged when it
does not. -/
theorem resolve_matches_spec_witness :
    resolve id (fun s => s == "/home/dev/project/foo/bar.h")
        (trieInsert emptyTrieNode "/sandbox/src" "/home/dev/project")
        "/sandbox/src/foo/bar.h" = "/home/dev/project/foo/bar.h" ∧
    resolve id (fun _ => false)
        (trieInsert emptyTrieNode "/sandbox/src" "/home/dev/project")
        "/sandbox/src/foo/bar.h" = "/sandbox/src/foo/bar.h" := by
  constructor
  · have h := ((resolve_matches_spec id (fun s => s == "/home/dev/project/foo/bar.h")
      (trieInsert emptyTrieNode "/sandbox/src" "/home/dev/project")
      "/sandbox/src/foo/bar.h").2 "/sandbox/src" "/home/dev/project" (by decide)).1 (by decide)
    exact h.trans (by decide)
  · exact ((resolve_matches_spec id (fun _ => false)
      (trieInsert emptyTrieNode "/sandbox/src" "/home/dev/project")
      "/sandbox/src/foo/bar.h").2 "/sandbox/src" "/home/dev/project" (by decide)).2 (by decide)

/-- C2 counterexample: with the single mapping `a/b ↦ v`, querying `a/x/b`
yields matchedPrefix `a/b` even though `a/b` is not a leading
segment-sequence of `a/x/b`: the source loop has no break, so the unmatched
segment `x` is skipped and the later segment `b` is still consumed. -/
theorem walk_skips_gaps_counterexample :
    getPrefixPathAndReplacePathWithPath (trieInsert emptyTrieNode "a/b" "v") "a/x/b"
        = some ("a/b", "v") ∧
    List.isPrefixOf (splitSegs "a/b") (splitSegs "a/x/b") = false := by decide

/-- C2 amended: every successful query returns the value of the final node
reached by the walk (necessarily a nonempty string, by the truthiness
check), with matchedPrefix the consumed segments joined by `/`; the
consumed segments form a subsequence of the query's segments, but not
necessarily a contiguous leading one, because a segment with no child is
skipped and the walk continues with the remaining segments. -/
theorem walk_consumes_subsequence (t : TrieNode) (path p v : String)
    (h : getPrefixPathAndReplacePathWithPath t path = some (p, v)) :
    ∃ consumed, List.Sublist consumed (splitSegs path) ∧
      p = joinSlash consumed ∧
      (walkAux t (splitSegs path) []).1.value = some v ∧ v ≠ "" := by
  simp only [getPrefixPathAndReplacePathWithPath] at h
  obtain ⟨d, hd, hsub⟩ := walkAux_sublist (splitSegs path) t []
  cases hv : (walkAux t (splitSegs path) []).1.value with
  | none => simp [hv] at h
  | some w =>
      simp only [hv] at h
      by_cases hw : w = ""
      · simp [hw] at h
      · rw [if_neg hw] at h
        have h' := Option.some.inj h
        have hp : joinSlash (walkAux t (splitSegs path) []).2 = p := congrArg Prod.fst h'
        have hwv : w = v := congrArg Prod.snd h'
        subst hp
        subst hwv
        refine ⟨d, hsub, ?_, rfl, hw⟩
        rw [hd]
        simp

/-- Witness for the amended C2 at the counterexample input. -/
theorem walk_consumes_subsequence_witness :
    ∃ consumed, List.Sublist consumed (splitSegs "a/x/b") ∧
      "a/b" = joinSlash consumed ∧
      (walkAux (trieInsert emptyTrieNode "a/b" "v") (splitSegs "a/x/b") []).1.value
          = some "v" ∧
      "v" ≠ "" :=
  walk_consumes_subsequence (trieInsert emptyTrieNode "a/b" "v") "a/x/b" "a/b" "v" (by decide)

/-- C3 counterexample: starting from the trie holding `a ↦ v1`, a reload
whose document contains only `b ↦ v2` leaves the old entry matching:
`updateCompletionPrefixMap` inserts into the existing trie and never clears
or replaces it, so `a` still matches `a/z` after the reload. -/
theorem reload_keeps_old_entries_counterexample :
    (updateCompletionPrefixMap (trieInsert emptyTrieNode "a" "v1")
        (.entries [("b", "v2")])).map
      (fun t => getPrefixPathAndReplacePathWithPath t "a/z")
      = .ok (some ("a", "v1")) := by rfl

/-- C3 amended: reload on a parseable document folds its entries into the
existing trie with `trieInsert` — the trie is augmented, not replaced — so a
key `k1` configured before the reload and absent from the current document
still matches afterwards (shown for the two-key situation with neither key a
segment-boundary prefix of the other). -/
theorem reload_augments_trie (k1 k2 v1 v2 path : String) (rest : List String)
    (h1 : List.isPrefixOf (splitSegs k1) (splitSegs k2) = false)
    (h2 : List.isPrefixOf (splitSegs k2) (splitSegs k1) = false)
    (hv1 : v1 ≠ "")
    (hpath : splitSegs path = splitSegs k1 ++ rest) :
    updateCompletionPrefixMap (trieInsert emptyTrieNode k1 v1) (.entries [(k2, v2)])
      = .ok (trieInsert (trieInsert emptyTrieNode k1 v1) k2 v2) ∧
    getPrefixPathAndReplacePathWithPath
        (trieInsert (trieInsert emptyTrieNode k1 v1) k2 v2) path
      = some (joinSlash (splitSegs k1), v1) := by
  refine ⟨rfl, ?_⟩
  simp only [getPrefixPathAndReplacePathWithPath, trieInsert, hpath]
  rw [insertSegs_empty, walk_two_key (splitSegs k1) (splitSegs k2) v1 v2 rest [] h1 h2]
  simp [TrieNode.value, hv1]

/-- Witness for the amended C3. -/
theorem reload_augments_trie_witness :
    updateCompletionPrefixMap (trieInsert emptyTrieNode "a/b" "u")
        (.entries [("a/c", "w")])
      = .ok (trieInsert (trieInsert emptyTrieNode "a/b" "u") "a/c" "w") ∧
    getPrefixPathAndReplacePathWithPath
        (trieInsert (trieInsert emptyTrieNode "a/b" "u") "a/c" "w") "a/b/z"
      = some (joinSlash (splitSegs "a/b"), "u") :=
  reload_augments_trie "a/b" "a/c" "u" "w" "a/b/z" ["z"]
    (by decide) (by decide) (by decide) (by decide)

/-- C4: reload leaves the trie exactly as it was in both failure
situations: a missing mapping file is no error and every subsequent lookup
behaves as before, and a malformed file makes `JSON.parse` throw before any
insertion, so the error propagates with the prior trie retained unchanged. -/
theorem reload_failure_retains_trie (t : TrieNode) :
    updateCompletionPrefixMap t .missing = .ok t ∧
    (∀ path, (updateCompletionPrefixMap t .missing).map
        (fun u => getPrefixPathAndReplacePathWithPath u path)
      = .ok (getPrefixPathAndReplacePathWithPath t path)) ∧
    updateCompletionPrefixMap t .malformed = .error () :=
  ⟨rfl, fun _ => rfl, rfl⟩

/-- C5: a burst of notifications in which each successive one arrives
strictly within the 2000 ms debounce window of its predecessor produces
exactly one timer firing, 2000 ms after the last notification and carrying
the last notification's URI (each notification cancels the pending timer and
arms a fresh one). -/
theorem debounce_coalesces (ns : List FsNotification) (h : ns ≠ [])
    (hburst : List.Chain' (fun a b => b.time < a.time + debounceDelay) ns) :
    debounceFires ns = [((ns.getLast h).time + debounceDelay, (ns.getLast h).uri)] := by
  induction ns with
  | nil => exact absurd rfl h
  | cons n tail ih =>
      cases tail with
      | nil => rfl
      | cons m rest =>
          rw [List.chain'_cons] at hburst
          simp only [debounceFires, if_pos hburst.1]
          rw [ih (List.cons_ne_nil m rest) hburst.2]
          simp [List.getLast_cons]

/-- Witness for C5: two notifications 100 ms apart coalesce into a single
firing 2000 ms after the second one, keyed to its URI. -/
theorem debounce_coalesces_witness :
    debounceFires [⟨0, "a"⟩, ⟨100, "b"⟩] = [(2100, "b")] := by
  have h := debounce_coalesces [⟨0, "a"⟩, ⟨100, "b"⟩] (by decide)
    (by simp [List.chain'_cons, debounceDelay])
  exact h.trans (by rfl)

/-- C6: when the timer fires and the stat size is ≤ 0, the handler returns
before the policy switch: no dispatch happens and the prefix map is not
updated. -/
theorem empty_file_no_dispatch (size : Int) (policy : String) (h : size ≤ 0) :
    handleConfigFilesChanged (.ok size) policy = .ok .noAction := by
  simp [handleConfigFilesChanged, h]

/-- Witness for C6 at size 0 under the default policy. -/
theorem empty_file_no_dispatch_witness :
    handleConfigFilesChanged (.ok 0) "prompt" = .ok .noAction :=
  empty_file_no_dispatch 0 "prompt" (by decide)

/-- C7 counterexample: when the watched file no longer exists at fire time
the handler does not behave as for an empty file — the `fs.stat` rejection
propagates out of the uncaught await as an error, whereas a size-0 stat
returns normally with no action. -/
theorem stat_rejection_counterexample :
    handleConfigFilesChanged .fileNotFound "prompt" = .error () ∧
    handleConfigFilesChanged .fileNotFound "prompt"
      ≠ handleConfigFilesChanged (.ok 0) "prompt" :=
  ⟨rfl, fun hc => by simp [handleConfigFilesChanged] at hc⟩

/-- C7 amended: with the file gone at fire time no action is performed — in
particular the prefix map is never updated — but the handler does not
complete normally: the stat failure propagates as an error for every
configured policy. -/
theorem stat_rejection_propagates (policy : String) :
    handleConfigFilesChanged .fileNotFound policy = .error () := rfl

/-- C8 counterexample: with no existing watcher and the mapping file absent
on disk, `createFileSystemWatcher` creates no subscription at all — the
`existsSync` guard skips watcher creation, so a later creation of the
mapping file goes undetected. -/
theorem watcher_absent_file_counterexample :
    (createFileSystemWatcher ⟨none⟩ "/storage" (fun _ => false)).fileWatcher = none := rfl

/-- C8 amended: each call disposes any previous watcher and creates a fresh
one for `<dir>/completion_prefix_map.json` subscribed to change and create
notifications only when the mapping file exists at call time; otherwise no
new subscription is made (at most one undisposed watcher ever exists, but a
file absent at subscription time is not watched for creation). -/
theorem watcher_recreate (s : CustomFileWatcherState) (dir : String)
    (existsSync : String → Bool) :
    (existsSync (dir ++ "/completion_prefix_map.json") = true →
      createFileSystemWatcher s dir existsSync
        = ⟨some ⟨dir ++ "/completion_prefix_map.json", true, true, false⟩⟩) ∧
    (existsSync (dir ++ "/completion_prefix_map.json") = false →
      createFileSystemWatcher s dir existsSync
        = ⟨s.fileWatcher.map fun w => { w with disposed := true }⟩) := by
  constructor <;> intro h <;> simp [createFileSystemWatcher, h]

/-- Witness for the amended C8: when the file exists a fresh watcher with
both handlers results. -/
theorem watcher_recreate_witness :
    createFileSystemWatcher ⟨none⟩ "/storage" (fun _ => true)
      = ⟨some ⟨"/storage" ++ "/completion_prefix_map.json", true, true, false⟩⟩ :=
  (watcher_recreate ⟨none⟩ "/storage" (fun _ => true)).1 rfl

/-- C9 counterexample: a definition result with two locations is collapsed
to its first element — `provideDefinition` remaps only `list[0]` and
returns that single location, dropping the second one. -/
theorem definition_drops_items_counterexample :
    provideDefinition id (fun _ => false) emptyTrieNode [⟨"x"⟩, ⟨"y"⟩] = .one ⟨"x"⟩ ∧
    DefinitionResponse.one ⟨"x"⟩ ≠ .list [⟨"x"⟩, ⟨"y"⟩] := by decide

/-- C9 amended: document links are remapped item by item — the output has
the same length and the i-th output is the i-th input with its target
resolved, so links are neither dropped nor reordered — while a nonempty
definition result is reduced to its first location, which is resolved and
returned alone. -/
theorem middleware_per_item (realpath : String → String) (existsSync : String → Bool)
    (root : TrieNode) (links : List DocumentLink) (l : Location) (ls : List Location) :
    (provideDocumentLinks realpath existsSync root links).length = links.length ∧
    (∀ i : Nat, (provideDocumentLinks realpath existsSync root links)[i]?
        = (links[i]?).map fun (item : DocumentLink) =>
            match item.target with
            | some p => (⟨some (resolve realpath existsSync root p)⟩ : DocumentLink)
            | none => item) ∧
    provideDefinition realpath existsSync root (l :: ls)
      = .one ⟨resolve realpath existsSync root l.path⟩ := by
  refine ⟨by simp [provideDocumentLinks], fun i => ?_, rfl⟩
  simp [provideDocumentLinks]

/-- C10: for the mapping document `{k1 ↦ v1, k2 ↦ v2}` with distinct keys,
neither of which is a segment-boundary prefix of the other, and distinct
replacement values, a query whose leading segments are exactly `k1`'s never
returns `k2`'s replacement value: the walk ends at `k1`'s terminal node, so
any value it returns is `v1`. -/
theorem two_keys_no_cross_value (k1 k2 v1 v2 path : String) (rest : List String)
    (_hk : k1 ≠ k2) (hv : v1 ≠ v2)
    (h1 : List.isPrefixOf (splitSegs k1) (splitSegs k2) = false)
    (h2 : List.isPrefixOf (splitSegs k2) (splitSegs k1) = false)
    (hpath : splitSegs path = splitSegs k1 ++ rest) :
    ∀ p v, getPrefixPathAndReplacePathWithPath
        (trieInsert (trieInsert emptyTrieNode k1 v1) k2 v2) path
      = some (p, v) → v ≠ v2 := by
  intro p v hpv
  simp only [getPrefixPathAndReplacePathWithPath, trieInsert, hpath] at hpv
  rw [insertSegs_empty, walk_two_key (splitSegs k1) (splitSegs k2) v1 v2 rest [] h1 h2]
    at hpv
  simp only [TrieNode.value] at hpv
  by_cases hv1 : v1 = ""
  · simp [hv1] at hpv
  · rw [if_neg hv1] at hpv
    obtain ⟨_, hwv⟩ := Prod.mk.injEq .. ▸ Option.some.injEq .. ▸ hpv
    rw [← hwv]; exact hv

/-- Witness for C10: the two-key document `{a/b ↦ u, a/c ↦ w}` and the query
`a/b/z`, which matches `a/b ↦ u` and therefore never yields `w`. -/
theorem two_keys_no_cross_value_witness :
    getPrefixPathAndReplacePathWithPath
        (trieInsert (trieInsert emptyTrieNode "a/b" "u") "a/c" "w") "a/b/z"
      = some ("a/b", "u") ∧
    ∀ p v, getPrefixPathAndReplacePathWithPath
        (trieInsert (trieInsert emptyTrieNode "a/b" "u") "a/c" "w") "a/b/z"
      = some (p, v) → v ≠ "w" :=
  ⟨by decide, two_keys_no_cross_value "a/b" "a/c" "u" "w" "a/b/z" ["z"]
    (by decide) (by decide) (by decide) (by decide) (by decide)⟩

end VscodeClangd
